import Mathlib

/-!
# faas-cli: the gateway HTTP client and the deploy aggregator

A shallow embedding of `proxy/client.go` (`NewClient`, `Client.newRequest`,
`Client.doRequest`) and of the deploy aggregator exercised by
`commands/deploy_test.go`, followed by the properties settled for them.

Conventions of the embedding.

* Go strings are Lean strings; every separator the code looks for (`/`, a
  blank, a newline) is ASCII, so cutting at the character and cutting at the
  byte agree.
* `*url.URL` is an address into `World.urls`; `url.Parse` results are placed at
  a fresh address by `World.alloc`, and a field assignment through a pointer is
  `World.setPath` / `World.setRawQuery`.  Dereferencing an address that holds
  no URL is Go's nil-pointer panic.
* An `io.Reader` value is an address into a `ReaderStore` of reader objects;
  reading takes text out of the object, for everyone who holds the address.
  The reader a call is handed stands at address 0 of the call's store.
* Everything printed with `fmt.Printf` / `fmt.Println` is appended to
  `World.stdout`, one entry per call.
* Functions of the Go standard library and the process environment are the
  fields of `Env`; the general theorems quantify over all of them, and
  `sampleEnv` is an instance on which the code is run at concrete inputs.
-/

namespace FaasCli

/-! ## Data model -/

/-- Go `error` values, identified by their message. -/
abbrev Error := String

/-- The fields of `net/url.URL` that the client reads or writes. -/
structure URL where
  Scheme : String
  Host : String
  Path : String
  RawQuery : String
deriving DecidableEq, Repr

/-- `url.Values`, in the order `Encode` visits the keys. -/
abbrev Values := List (String × List String)

/-- `http.Header`: key and values, in the order a `range` over the map visits them. -/
abbrev Header := List (String × List String)

/-- The concrete type behind an `io.Reader` value, as far as `http.NewRequest`
tells the types apart. -/
inductive ReaderKind where
  | bytesBuffer
  | bytesReader
  | stringsReader
  | nopCloser
  | noBody
  | other
deriving DecidableEq, Repr

/-- A reader object: its concrete type, the text not yet read from it, and what
follows that text, end of file (`failure = none`) or a read error.  Reading
takes text out of `unread`. -/
structure Reader where
  kind : ReaderKind
  unread : String
  failure : Option Error
deriving DecidableEq, Repr

/-- The reader objects a call works with.  An `io.Reader` value is an address
into the store; everything that holds the address sees what was read through
any of the others. -/
abbrev ReaderStore := List Reader

/-- A `context.Context` at the moment it is inspected: `Err` is `ctx.Err()`,
which is non-nil exactly when `ctx.Done()` is closed. -/
structure Context where
  Err : Option Error
deriving DecidableEq, Repr

/-- `context.Background()`. -/
def Context.background : Context := ⟨none⟩

/-- Whether `<-ctx.Done()` is ready. -/
def Context.Done (ctx : Context) : Bool := ctx.Err.isSome

/-- The parts of `http.Request` that the client touches.  `URL` is the URL
object the request owns (allocated by `http.NewRequest`, aliased by nothing).
`Body` is the reader object `req.Body` refers to, in the state it has when the
request is built.  `GetBody` is the text each call of `req.GetBody` replays,
`none` for a nil `GetBody`. -/
structure Request where
  Method : String
  URL : URL
  Header : Header
  Body : Option Reader
  ContentLength : Int
  GetBody : Option String
  ctx : Context
deriving DecidableEq, Repr

/-- The parts of `http.Response` the callers look at. -/
structure Response where
  StatusCode : Int
  Body : String
deriving DecidableEq, Repr

/-- An `http.RoundTripper`, identified by a tag. -/
structure RoundTripper where
  tag : Nat
deriving DecidableEq, Repr

/-- The fields of `http.Client` set by `NewClient`.  `Timeout` is a
`time.Duration` (nanoseconds); for `http.Client` the value zero means that no
timeout is applied. -/
structure HttpClient where
  Transport : Option RoundTripper
  Timeout : Int
deriving DecidableEq, Repr

/-- The `ClientAuth` interface: `Set` may change the request it is given and
returns an `error`. -/
structure ClientAuth where
  Set : Request → Request × Option Error

/-- The struct `Client`.  `GatewayURL` is a `*url.URL`: an address into `World.urls`. -/
structure Client where
  httpClient : HttpClient
  ClientAuth : ClientAuth
  GatewayURL : Nat
  UserAgent : String

/-- The Go standard library, the `version` package and the process environment,
as far as `client.go` calls them. -/
structure Env where
  /-- `url.Parse`. -/
  urlParse : String → Except Error URL
  /-- `(*url.URL).String`. -/
  urlString : URL → String
  /-- `path.Join` of two elements. -/
  pathJoin : String → String → String
  /-- `url.Values.Encode`. -/
  queryEncode : Values → String
  /-- The method check of `http.NewRequest`. -/
  validMethod : String → Bool
  /-- `strconv.Quote`, the verb `%q`. -/
  quote : String → String
  /-- `os.LookupEnv`. -/
  lookupEnv : String → Option String
  /-- `httputil.DumpRequest(req, true)`; it leaves the request's body readable. -/
  dumpRequest : Request → Except Error String
  /-- `(*http.Client).Do`. -/
  httpDo : HttpClient → Request → Option Response × Option Error
  /-- `version.BuildVersion()`. -/
  buildVersion : String

/-- `os.Getenv`: the empty string when the variable is unset. -/
def Env.Getenv (env : Env) (key : String) : String := (env.lookupEnv key).getD ""

/-- The environment after `os.Setenv(key, value)`. -/
def Env.setenv (env : Env) (key value : String) : Env :=
  { env with lookupEnv := fun k => if k = key then some value else env.lookupEnv k }

/-- The mutable state outside the arguments: the URL objects behind `*url.URL`
pointers, and what has been printed. -/
structure World where
  urls : List URL
  stdout : List String
deriving DecidableEq, Repr

/-- Place a URL object at a fresh address. -/
def World.alloc (w : World) (u : URL) : World × Nat :=
  ({ w with urls := w.urls ++ [u] }, w.urls.length)

/-- The assignment `p.Path = v`. -/
def World.setPath (w : World) (p : Nat) (v : String) : World :=
  match w.urls[p]? with
  | some u => { w with urls := w.urls.set p { u with Path := v } }
  | none => w

/-- The assignment `p.RawQuery = v`. -/
def World.setRawQuery (w : World) (p : Nat) (v : String) : World :=
  match w.urls[p]? with
  | some u => { w with urls := w.urls.set p { u with RawQuery := v } }
  | none => w

/-- One `fmt.Printf` / `fmt.Println` call. -/
def World.print (w : World) (s : String) : World :=
  { w with stdout := w.stdout ++ [s] }

/-- How a call ends: it returns a value with a nil error, returns a non-nil
error, or panics. -/
inductive Outcome (α : Type) where
  | value (a : α)
  | failure (err : Error)
  | panic
deriving Repr

/-! ## Library functions with a fixed meaning -/

/-- `strings.TrimRight(s, cutset)`: drop every trailing character that occurs in `cutset`. -/
def trimRight (s cutset : String) : String :=
  String.mk (s.data.rdropWhile (fun ch => decide (ch ∈ cutset.data)))

/-- The search of `strings.Cut` on character lists: the text before and after
the first occurrence of `sep`, if there is one. -/
def cutList (sep : List Char) : List Char → Option (List Char × List Char)
  | [] => if sep = [] then some ([], []) else none
  | ch :: t =>
    if sep.isPrefixOf (ch :: t) then some ([], (ch :: t).drop sep.length)
    else (cutList sep t).map (fun r => (ch :: r.1, r.2))

/-- `strings.Cut(s, sep)`: `(before, after, found)`, and `(s, "", false)` when
`sep` does not occur. -/
def cut (s sep : String) : String × String × Bool :=
  match cutList sep.data s.data with
  | some (before, after) => (String.mk before, String.mk after, true)
  | none => (s, "", false)

/-- Place a reader object at a fresh address. -/
def ReaderStore.alloc (store : ReaderStore) (r : Reader) : ReaderStore × Nat :=
  (store ++ [r], store.length)

/-- The store at the start of a call that is handed `body`: the object the
caller passes stands at address 0, and the `io.Reader` argument is that address
(`none` for a nil argument). -/
def passReader (body : Option Reader) : ReaderStore × Option Nat :=
  match body with
  | some r => ([r], some 0)
  | none => ([], none)

/-- `io.Copy` from the reader at address `src` into a fresh `strings.Builder`:
the object is left with nothing unread; returns the store, the text read and
the read error if any.  `none` when no object stands at `src`. -/
def ioCopy (store : ReaderStore) (src : Nat) : Option (ReaderStore × String × Option Error) :=
  match store[src]? with
  | some r => some (store.set src { r with unread := "" }, r.unread, r.failure)
  | none => none

/-- What reading an object in this state to the end delivers (`io.ReadAll`). -/
def Reader.readAll (r : Reader) : Except Error String :=
  match r.failure with
  | none => .ok r.unread
  | some err => .error err

/-- `strings.NewReader`. -/
def stringsNewReader (s : String) : Reader := ⟨.stringsReader, s, none⟩

/-- `io.NopCloser` around a reader that nothing else refers to. -/
def ioNopCloser (r : Reader) : Reader := { r with kind := .nopCloser }

/-- `http.NoBody`. -/
def httpNoBody : Reader := ⟨.noBody, "", none⟩

/-- `http.Header.Set` for a key already in canonical form: the key's values
become the single value given. -/
def Header.Set (h : Header) (key value : String) : Header :=
  if h.any (fun kv => kv.1 == key) then
    h.map (fun kv => if kv.1 == key then (key, [value]) else kv)
  else h ++ [(key, [value])]

/-- The values stored under a key (`h[key]`), `none` when the key is absent. -/
def Header.values (h : Header) (key : String) : Option (List String) :=
  (h.find? (fun kv => kv.1 == key)).map Prod.snd

/-- The block `if body != nil` of `http.NewRequest`: for a `*bytes.Buffer`,
`*bytes.Reader` or `*strings.Reader` the content length is the number of unread
bytes and `GetBody` replays them, for any other type both stay unset; a body
known to be empty is replaced by `http.NoBody`. -/
def attachBody (req : Request) (r : Reader) : Request :=
  let req := { req with Body := some r }
  let req :=
    match r.kind with
    | .bytesBuffer | .bytesReader | .stringsReader =>
      { req with ContentLength := r.unread.utf8ByteSize, GetBody := some r.unread }
    | _ => req
  if req.GetBody.isSome && req.ContentLength == 0 then
    { req with Body := some httpNoBody, GetBody := some "" }
  else req

/-- The request `http.NewRequest` starts from: the method (`GET` for the empty
string), the parsed URL, an empty header, no body and the background context. -/
def emptyRequest (method : String) (u : URL) : Request :=
  { Method := if method = "" then "GET" else method, URL := u, Header := [],
    Body := none, ContentLength := 0, GetBody := none, ctx := Context.background }

/-- `http.NewRequest`: checks the method, parses the URL and returns a request
with an empty header, the background context and the body given. -/
def httpNewRequest (env : Env) (store : ReaderStore) (method url : String)
    (body : Option Nat) : Outcome Request :=
  if env.validMethod method then
    match env.urlParse url with
    | .ok u =>
      match body with
      | none => .value (emptyRequest method u)
      | some ref =>
        match store[ref]? with
        | some r => .value (attachBody (emptyRequest method u) r)
        | none => .panic
    | .error err => .failure err
  else .failure ("net/http: invalid method " ++ env.quote method)

/-- `(*http.Request).WithContext`. -/
def Request.WithContext (req : Request) (ctx : Context) : Request := { req with ctx := ctx }

/-- The verb `%s` applied to a `[]string`. -/
def fmtStrings (v : List String) : String := "[" ++ " ".intercalate v ++ "]"

/-! ## `proxy/client.go` -/

/-- `NewClient`: trims trailing slashes, parses the gateway URL and builds the
client around a fresh `http.Client`. -/
def NewClient (env : Env) (w : World) (auth : ClientAuth) (gatewayURL : String)
    (transport : Option RoundTripper) (timeout : Option Int) : World × Outcome Client :=
  let gatewayURL := trimRight gatewayURL "/"
  match env.urlParse gatewayURL with
  | .error _ => (w, .failure ("invalid gateway URL: " ++ gatewayURL))
  | .ok parsed =>
    let (w, baseURL) := w.alloc parsed
    let client : HttpClient := { Transport := none, Timeout := 0 }
    let client := match timeout with
      | some t => { client with Timeout := t }
      | none => client
    let client := match transport with
      | some t => { client with Transport := some t }
      | none => client
    (w, .value { ClientAuth := auth, httpClient := client, GatewayURL := baseURL,
                 UserAgent := "faas-cli/" ++ env.buildVersion })

/-- Lines 73-86 of `newRequest`: with `FAAS_DEBUG=1` a non-nil body is read to
the end into `bodyDebug` (through the `io.NopCloser` of line 77, which reads
from the body itself), and `body` is set to a new reader over the text read.
Returns the store, `bodyDebug` and `body`, or the read error. -/
def debugBody (env : Env) (store : ReaderStore) (body : Option Nat) :
    Outcome (ReaderStore × String × Option Nat) :=
  if env.Getenv "FAAS_DEBUG" = "1" then
    match body with
    | some ref =>
      match ioCopy store ref with
      | none => .panic
      | some (_, _, some err) => .failure err
      | some (store, buf, none) =>
        let (store, fresh) := store.alloc (ioNopCloser (stringsNewReader buf))
        .value (store, buf, some fresh)
    | none => .value (store, "", none)
  else .value (store, "", body)

/-- Lines 107-115 of `newRequest`: the text printed in place of the values of
the `Authorization` header. -/
def redactAuthorization (v : List String) : String :=
  match v with
  | [] => "[NOT_SET]"
  | v0 :: _ =>
    match cut v0 " " with
    | (l, _, ok) => if ok && (l == "Basic" || l == "Bearer") then l ++ " REDACTED" else "[REDACTED]"

/-- The body of the loop at lines 105-121: the line printed for one header entry. -/
def traceHeaderLine (k : String) (v : List String) : String :=
  if k = "Authorization" then k ++ ": " ++ redactAuthorization v ++ "\n"
  else k ++ ": " ++ fmtStrings v ++ "\n"

/-- Lines 103-126 of `newRequest`: what is printed for a finished request. -/
def traceRequest (env : Env) (w : World) (req : Request) (bodyDebug : String) : World :=
  if env.Getenv "FAAS_DEBUG" = "1" then
    let w := w.print (req.Method ++ " " ++ env.urlString req.URL ++ "\n")
    let w := req.Header.foldl (fun w kv => w.print (traceHeaderLine kv.1 kv.2)) w
    if bodyDebug.length > 0 then w.print (bodyDebug ++ "\n") else w
  else w

/-- Lines 93-101 of `newRequest`: the content type when there is a body, the
user agent when the client has one, then the authenticator, whose returned
error is not looked at. -/
def finishRequest (c : Client) (body : Option Nat) (req : Request) : Request :=
  let req := if body.isSome then
      { req with Header := req.Header.Set "Content-Type" "application/json" } else req
  let req := if c.UserAgent ≠ "" then
      { req with Header := req.Header.Set "User-Agent" c.UserAgent } else req
  (c.ClientAuth.Set req).1

/-- `(c *Client) newRequest`. -/
def newRequest (env : Env) (w : World) (c : Client) (method path : String) (query : Values)
    (body : Option Reader) : World × Outcome Request :=
  match w.urls[c.GatewayURL]? with
  | none => (w, .panic)
  | some gateway =>
    match env.urlParse (env.urlString gateway) with
    | .error err => (w, .failure err)
    | .ok parsed =>
      let (w, endpoint) := w.alloc parsed
      let w := w.setPath endpoint (env.pathJoin parsed.Path path)
      let w := w.setRawQuery endpoint (env.queryEncode query)
      match debugBody env (passReader body).1 (passReader body).2 with
      | .panic => (w, .panic)
      | .failure err => (w, .failure err)
      | .value (store, bodyDebug, body) =>
        match w.urls[endpoint]? with
        | none => (w, .panic)
        | some target =>
          match httpNewRequest env store method (env.urlString target) body with
          | .panic => (w, .panic)
          | .failure err => (w, .failure err)
          | .value req =>
            let req := finishRequest c body req
            (traceRequest env w req bodyDebug, .value req)

/-- `(c *Client) doRequest`: the pair `(res, err)` it returns. -/
def doRequest (env : Env) (w : World) (c : Client) (ctx : Context) (req : Request) :
    World × Option Response × Option Error :=
  let req := req.WithContext ctx
  let dumped : Except Error World :=
    if env.lookupEnv "OPENFAAS_DUMP_HTTP" = some "true" then
      match env.dumpRequest req with
      | .error err => .error err
      | .ok dump => .ok (w.print (dump ++ "\n"))
    else .ok w
  match dumped with
  | .error err => (w, none, some err)
  | .ok w =>
    match env.httpDo c.httpClient req with
    | (res, some err) =>
      if ctx.Done then (w, none, ctx.Err)
      else (w, res, some err)
    | (res, none) => (w, res, none)

/-! ## The deploy aggregator of `commands` -/

/-- Modelled from the spec: `badStatusCode` of package `commands`, of which only
the tests are at hand.  "A status code is bad if it is not `200 OK` and not
`202 Accepted`." -/
def badStatusCode (statusCode : Int) : Bool :=
  statusCode != 200 && statusCode != 202

/-- The line the aggregator writes for one function. -/
def deployLine (name : String) (statusCode : Int) : String :=
  "Function '" ++ name ++ "' failed to deploy with status code: " ++ toString statusCode

/-- The lines the aggregator collects: one for each entry with a bad status
code, in the order the mapping is visited. -/
def deployLines (status : List (String × Int)) : List String :=
  (status.filter (fun kv => badStatusCode kv.2)).map (fun kv => deployLine kv.1 kv.2)

/-- Modelled from the spec: `deployFailed` of package `commands`, of which only
the tests are at hand.  The mapping is the list of its entries in the order a
`range` visits them.  "If the mapping is empty, returns no error.  Otherwise,
for each entry with a bad status code, appends the line to a combined
multi-line message; if at least one bad entry exists, returns a single error
whose message concatenates all such lines." -/
def deployFailed (status : List (String × Int)) : Option Error :=
  if status.isEmpty then none
  else
    let allErrors := deployLines status
    if allErrors.isEmpty then none else some ("\n".intercalate allErrors)

/-- The lines of a message: the text between newlines. -/
def messageLines (msg : String) : List String :=
  (msg.data.splitOn '\n').map String.mk

/-! ## A small environment to run the definitions on -/

/-- A reading of `url.Parse` for plain `scheme://host/path?query` addresses; an
address with a blank in it is rejected. -/
def sampleParse (s : String) : Except Error URL :=
  if s.data.contains ' ' then .error ("parse \"" ++ s ++ "\": invalid character \" \" in host name")
  else
    match cut s "?" with
    | (front, query, _) =>
      match cut front "://" with
      | (scheme, rest, true) =>
        (match cut rest "/" with
         | (host, path, true) => .ok ⟨scheme, host, "/" ++ path, query⟩
         | (host, _, false) => .ok ⟨scheme, host, "", query⟩)
      | (_, _, false) => .ok ⟨"", "", front, query⟩

/-- A reading of `(*url.URL).String` for the same addresses. -/
def sampleString (u : URL) : String :=
  (if u.Scheme = "" then "" else u.Scheme ++ "://") ++ u.Host ++ u.Path ++
    (if u.RawQuery = "" then "" else "?" ++ u.RawQuery)

/-- A reading of `path.Join` for a clean base path and a clean rooted path. -/
def sampleJoin (a b : String) : String :=
  if b = "" then a else if a = "" then b else trimRight a "/" ++ "/" ++ String.mk (b.data.dropWhile (· == '/'))

/-- A reading of `url.Values.Encode` for values that need no escaping. -/
def sampleEncode (q : Values) : String :=
  "&".intercalate (q.flatMap (fun kv => kv.2.map (fun v => kv.1 ++ "=" ++ v)))

/-- An environment in which `FAAS_DEBUG` is set to `debug` and
`OPENFAAS_DUMP_HTTP` is unset, the gateway answers `200`, and the transport
fails once the context is done. -/
def sampleEnv (debug : String) : Env where
  urlParse := sampleParse
  urlString := sampleString
  pathJoin := sampleJoin
  queryEncode := sampleEncode
  validMethod := fun m => m.data.all Char.isUpper
  quote := fun s => "\"" ++ s ++ "\""
  lookupEnv := fun key => if key = "FAAS_DEBUG" then some debug else none
  dumpRequest := fun req => .ok (req.Method ++ " " ++ req.URL.Path ++ " HTTP/1.1\r\n\r\n")
  httpDo := fun _ req =>
    match req.ctx.Err with
    | some err => (none, some ("Get: " ++ err))
    | none => (some ⟨200, ""⟩, none)
  buildVersion := "dev"

/-- An authenticator that attaches nothing. -/
def noAuth : ClientAuth := ⟨fun req => (req, none)⟩

/-- An authenticator that has no credentials to attach; its `Set` fails. -/
def failingAuth : ClientAuth := ⟨fun req => (req, some "no credentials available")⟩

/-- Basic authentication with fixed credentials. -/
def basicAuth : ClientAuth :=
  ⟨fun req => ({ req with Header := req.Header.Set "Authorization" "Basic YWRtaW46c2VjcmV0" }, none)⟩

/-- The state before anything was allocated or printed. -/
def emptyWorld : World := ⟨[], []⟩

/-- The state with one gateway URL object at address 0. -/
def gatewayWorld : World := ⟨[⟨"http", "127.0.0.1:8080", "", ""⟩], []⟩

/-- A client over `gatewayWorld`, as `NewClient` returns it. -/
def gatewayClient (auth : ClientAuth) (userAgent : String) : Client :=
  { httpClient := ⟨none, 0⟩, ClientAuth := auth, GatewayURL := 0, UserAgent := userAgent }

/-- The characters that separate the parts of a deploy line or of a message. -/
def separator (ch : Char) : Prop := ch = ' ' ∨ ch = '\n'


/-! ## Helper lemmas -/

theorem trimRight_append_slashes (g : String) (k : Nat) :
    trimRight (g ++ String.mk (List.replicate k '/')) "/" = trimRight g "/" := by
  induction k with
  | zero =>
    show trimRight (g ++ "") "/" = trimRight g "/"
    rw [String.append_empty]
  | succ k ih =>
    rw [← ih]
    unfold trimRight
    congr 1
    simp only [String.data_append, List.replicate_succ']
    rw [← List.append_assoc, List.rdropWhile_concat]
    simp

theorem trimRight_idem (g cutset : String) :
    trimRight (trimRight g cutset) cutset = trimRight g cutset := by
  unfold trimRight
  simp [List.rdropWhile_idempotent]

theorem alloc_then_set (w : World) (u : URL) (p q : String) :
    (((w.alloc u).1.setPath w.urls.length p).setRawQuery w.urls.length q) =
      { w with urls := w.urls ++ [{ u with Path := p, RawQuery := q }] } := by
  simp [World.alloc, World.setPath, World.setRawQuery, List.set_append]

/-- What `newRequest` does, with the pointer operations carried out. -/
theorem newRequest_eq (env : Env) (w : World) (c : Client) (method path : String)
    (query : Values) (body : Option Reader) :
    newRequest env w c method path query body =
      match w.urls[c.GatewayURL]? with
      | none => (w, .panic)
      | some gateway =>
        match env.urlParse (env.urlString gateway) with
        | .error err => (w, .failure err)
        | .ok parsed =>
          let target : URL :=
            { parsed with Path := env.pathJoin parsed.Path path, RawQuery := env.queryEncode query }
          let w : World := { w with urls := w.urls ++ [target] }
          match debugBody env (passReader body).1 (passReader body).2 with
          | .panic => (w, .panic)
          | .failure err => (w, .failure err)
          | .value (store, bodyDebug, body) =>
            match httpNewRequest env store method (env.urlString target) body with
            | .panic => (w, .panic)
            | .failure err => (w, .failure err)
            | .value req =>
              (traceRequest env w (finishRequest c body req) bodyDebug,
                .value (finishRequest c body req)) := by
  unfold newRequest
  cases hg : w.urls[c.GatewayURL]? with
  | none => rfl
  | some gateway =>
    simp only
    cases hp : env.urlParse (env.urlString gateway) with
    | error err => rfl
    | ok parsed =>
      simp only [show (w.alloc parsed).2 = w.urls.length from rfl, alloc_then_set]
      cases hd : debugBody env (passReader body).1 (passReader body).2 with
      | panic => rfl
      | failure err => rfl
      | value r =>
        obtain ⟨store, bodyDebug, body2⟩ := r
        simp

theorem foldl_print_urls (lines : List String) (w : World) :
    (lines.foldl (fun w s => w.print s) w).urls = w.urls := by
  induction lines generalizing w with
  | nil => rfl
  | cons s t ih => rw [List.foldl_cons, ih]; rfl

theorem foldl_print_stdout (lines : List String) (w : World) :
    (lines.foldl (fun w s => w.print s) w).stdout = w.stdout ++ lines := by
  induction lines generalizing w with
  | nil => simp
  | cons s t ih => rw [List.foldl_cons, ih]; simp [World.print]

theorem traceRequest_header_fold (h : Header) (w : World) :
    h.foldl (fun w kv => w.print (traceHeaderLine kv.1 kv.2)) w =
      (h.map (fun kv => traceHeaderLine kv.1 kv.2)).foldl (fun w s => w.print s) w := by
  rw [List.foldl_map]

theorem traceRequest_urls (env : Env) (w : World) (req : Request) (bodyDebug : String) :
    (traceRequest env w req bodyDebug).urls = w.urls := by
  unfold traceRequest
  split
  · simp only [traceRequest_header_fold]
    split
    · show (List.foldl (fun (w : World) (s : String) => w.print s) _ _).urls = _
      rw [foldl_print_urls]; rfl
    · rw [foldl_print_urls]; rfl
  · rfl

/-- The URL objects after `newRequest`: those before it, unchanged, followed by
at most the copy the call worked on. -/
theorem newRequest_urls (env : Env) (w : World) (c : Client) (method path : String)
    (query : Values) (body : Option Reader) :
    ∃ extra, (newRequest env w c method path query body).1.urls = w.urls ++ extra := by
  rw [newRequest_eq]
  cases hg : w.urls[c.GatewayURL]? with
  | none => exact ⟨[], by simp⟩
  | some gateway =>
    simp only
    cases hp : env.urlParse (env.urlString gateway) with
    | error err => exact ⟨[], by simp⟩
    | ok parsed =>
      simp only
      cases hd : debugBody env (passReader body).1 (passReader body).2 with
      | panic => exact ⟨_, rfl⟩
      | failure err => exact ⟨_, rfl⟩
      | value r =>
        obtain ⟨store, bodyDebug, body2⟩ := r
        simp only
        cases hn : httpNewRequest env store method _ body2 with
        | panic => exact ⟨_, rfl⟩
        | failure err => exact ⟨_, rfl⟩
        | value req => exact ⟨_, traceRequest_urls _ _ _ _⟩

/-- The outcome of `newRequest` depends on the state only through the URL
object the client points to. -/
theorem newRequest_outcome_congr (env : Env) (w w' : World) (c : Client) (method path : String)
    (query : Values) (body : Option Reader) (h : w'.urls[c.GatewayURL]? = w.urls[c.GatewayURL]?) :
    (newRequest env w' c method path query body).2 = (newRequest env w c method path query body).2 := by
  rw [newRequest_eq, newRequest_eq, h]
  cases hg : w.urls[c.GatewayURL]? with
  | none => rfl
  | some gateway =>
    simp only
    cases hp : env.urlParse (env.urlString gateway) with
    | error err => rfl
    | ok parsed =>
      simp only
      cases hd : debugBody env (passReader body).1 (passReader body).2 with
      | panic => rfl
      | failure err => rfl
      | value r =>
        obtain ⟨store, bodyDebug, body2⟩ := r
        simp only
        cases hn : httpNewRequest env store method _ body2 with
        | panic => rfl
        | failure err => rfl
        | value req => rfl

theorem newRequest_gateway_kept (env : Env) (w : World) (c : Client) (method path : String)
    (query : Values) (body : Option Reader) :
    (newRequest env w c method path query body).1.urls[c.GatewayURL]? = w.urls[c.GatewayURL]? := by
  obtain ⟨extra, he⟩ := newRequest_urls env w c method path query body
  by_cases hlt : c.GatewayURL < w.urls.length
  · rw [he, List.getElem?_append_left hlt]
  · have hg : w.urls[c.GatewayURL]? = none := by
      rw [List.getElem?_eq_none_iff]; omega
    rw [newRequest_eq, hg]
    exact hg

/-- C1. `Client.newRequest` never mutates the client's stored base URL: every
URL object that existed before the call, the one behind `c.GatewayURL` among
them, is the same after the call, whether it returns a request, returns an
error or panics; consequently a request built for a second path after a call
for a first path is the request (URL included) built for it with no previous call. -/
theorem newRequest_preserves_gateway (env : Env) (w : World) (c : Client)
    (method path : String) (query : Values) (body : Option Reader) :
    (newRequest env w c method path query body).1.urls.take w.urls.length = w.urls ∧
    (newRequest env w c method path query body).1.urls[c.GatewayURL]? = w.urls[c.GatewayURL]? ∧
    ∀ (method2 path2 : String) (query2 : Values) (body2 : Option Reader),
      (newRequest env (newRequest env w c method path query body).1 c method2 path2 query2 body2).2 =
        (newRequest env w c method2 path2 query2 body2).2 := by
  refine ⟨?_, newRequest_gateway_kept env w c method path query body, ?_⟩
  · obtain ⟨extra, he⟩ := newRequest_urls env w c method path query body
    rw [he, List.take_left]
  · intro method2 path2 query2 body2
    exact newRequest_outcome_congr env w _ c method2 path2 query2 body2
      (newRequest_gateway_kept env w c method path query body)

/-- C6. `NewClient` ignores trailing slashes on the gateway URL: called with
`g` followed by `k` slashes (any `k`, so every `k ≥ 1`) it ends exactly as when
called with `g` stripped of all its trailing slashes: the same error, or a
client with the same stored gateway URL object. -/
theorem NewClient_trailing_slashes (env : Env) (w : World) (auth : ClientAuth) (g : String)
    (transport : Option RoundTripper) (timeout : Option Int) (k : Nat) :
    NewClient env w auth (g ++ String.mk (List.replicate k '/')) transport timeout =
      NewClient env w auth (trimRight g "/") transport timeout := by
  unfold NewClient
  simp only [trimRight_append_slashes, trimRight_idem]

/-- C7, as the code has it: with no timeout supplied `NewClient` leaves the
`http.Client` timeout at zero, which for `http.Client` means no timeout. -/
theorem NewClient_no_default_timeout :
    ∃ w c, NewClient (sampleEnv "") emptyWorld noAuth "http://127.0.0.1:8080" none none =
        (w, Outcome.value c) ∧ c.httpClient.Timeout = 0 := by
  refine ⟨_, _, rfl, rfl⟩

/-- C7, amended. When `NewClient` succeeds, the timeout of the `http.Client` is
the supplied value when one is supplied, and zero (no timeout) when none is. -/
theorem NewClient_timeout (env : Env) (w w' : World) (auth : ClientAuth) (g : String)
    (transport : Option RoundTripper) (timeout : Option Int) (c : Client)
    (h : NewClient env w auth g transport timeout = (w', Outcome.value c)) :
    (∀ t, timeout = some t → c.httpClient.Timeout = t) ∧
    (timeout = none → c.httpClient.Timeout = 0) := by
  unfold NewClient at h
  cases hp : env.urlParse (trimRight g "/") with
  | error err => simp [hp] at h
  | ok parsed =>
    simp only [hp, World.alloc, Prod.mk.injEq, Outcome.value.injEq] at h
    obtain ⟨_, rfl⟩ := h
    cases timeout <;> cases transport <;> simp

theorem NewClient_timeout_witness :
    ∃ w c, NewClient (sampleEnv "") emptyWorld noAuth "http://127.0.0.1:8080/" none
        (some 60000000000) = (w, Outcome.value c) ∧ c.httpClient.Timeout = 60000000000 :=
  ⟨_, _, rfl,
    (NewClient_timeout (sampleEnv "") emptyWorld _ noAuth "http://127.0.0.1:8080/" none
      (some 60000000000) _ rfl).1 _ rfl⟩

theorem find_replaced_self (key value : String) (h : Header)
    (hany : h.any (fun kv => kv.1 == key) = true) :
    ((h.map (fun kv => if kv.1 == key then (key, [value]) else kv)).find?
      (fun kv => kv.1 == key)).map Prod.snd = some [value] := by
  induction h with
  | nil => simp at hany
  | cons kv t ih =>
    rw [List.map_cons, List.find?_cons]
    by_cases hk : (kv.1 == key) = true
    · rw [if_pos hk]
      have : ((key, [value]).1 == key) = true := beq_self_eq_true key
      rw [this]; rfl
    · rw [if_neg hk]
      have hk' : (kv.1 == key) = false := by simpa using hk
      rw [hk']
      apply ih
      rw [List.any_cons, hk'] at hany
      simpa using hany

theorem find_replaced_other (key value other : String) (hne : other ≠ key) (h : Header) :
    ((h.map (fun kv => if kv.1 == key then (key, [value]) else kv)).find?
      (fun kv => kv.1 == other)).map Prod.snd =
    (h.find? (fun kv => kv.1 == other)).map Prod.snd := by
  have hko : (key == other) = false := by
    simpa using fun e : key = other => hne e.symm
  induction h with
  | nil => rfl
  | cons kv t ih =>
    rw [List.map_cons, List.find?_cons, List.find?_cons]
    by_cases hk : (kv.1 == key) = true
    · rw [if_pos hk]
      have hkv : kv.1 = key := by simpa using hk
      have h1 : ((key, [value]).1 == other) = false := hko
      have h2 : (kv.1 == other) = false := by rw [hkv]; exact hko
      rw [h1, h2]
      exact ih
    · rw [if_neg hk]
      cases ho : (kv.1 == other) with
      | true => rfl
      | false => exact ih

theorem Header.values_Set_self (h : Header) (key value : String) :
    (h.Set key value).values key = some [value] := by
  unfold Header.Set Header.values
  split
  · rename_i hany
    exact find_replaced_self key value h hany
  · rename_i hany
    have hnone : h.find? (fun kv => kv.1 == key) = none := by
      rw [List.find?_eq_none]
      intro kv hkv hk
      exact hany (List.any_eq_true.mpr ⟨kv, hkv, hk⟩)
    simp [List.find?_append, hnone]

theorem Header.values_Set_other (h : Header) (key value other : String) (hne : other ≠ key) :
    (h.Set key value).values other = h.values other := by
  have hko : (key == other) = false := by
    simpa using fun e : key = other => hne e.symm
  unfold Header.Set Header.values
  split
  · exact find_replaced_other key value other hne h
  · rw [List.find?_append]
    cases hf : h.find? (fun kv => kv.1 == other) with
    | some kv => rfl
    | none =>
      have : [(key, [value])].find? (fun kv => kv.1 == other) = none := by
        rw [List.find?_cons]
        have h1 : ((key, [value]).1 == other) = false := hko
        rw [h1]; rfl
      rw [this]; rfl

theorem debugBody_isSome (env : Env) (body : Option Reader) (store : ReaderStore)
    (bodyDebug : String) (body2 : Option Nat)
    (h : debugBody env (passReader body).1 (passReader body).2 = .value (store, bodyDebug, body2)) :
    body2.isSome = body.isSome := by
  unfold debugBody at h
  split at h
  · cases body with
    | none =>
      simp only [passReader, Outcome.value.injEq, Prod.mk.injEq] at h
      rw [← h.2.2]; rfl
    | some r =>
      simp only [passReader, ioCopy, List.getElem?_cons_zero] at h
      cases hf : r.failure with
      | none =>
        simp only [hf, ReaderStore.alloc, Outcome.value.injEq, Prod.mk.injEq] at h
        rw [← h.2.2]; rfl
      | some err => simp [hf] at h
  · simp only [Outcome.value.injEq, Prod.mk.injEq] at h
    rw [← h.2.2]
    cases body <;> rfl

/-- How a successful `newRequest` got its request. -/
theorem newRequest_value (env : Env) (w w' : World) (c : Client) (method path : String)
    (query : Values) (body : Option Reader) (req : Request)
    (h : newRequest env w c method path query body = (w', Outcome.value req)) :
    ∃ store bodyDebug body2 target req0,
      debugBody env (passReader body).1 (passReader body).2 = .value (store, bodyDebug, body2) ∧
      httpNewRequest env store method (env.urlString target) body2 = .value req0 ∧
      req = finishRequest c body2 req0 ∧
      w' = traceRequest env { w with urls := w.urls ++ [target] } req bodyDebug := by
  rw [newRequest_eq] at h
  cases hg : w.urls[c.GatewayURL]? with
  | none => simp [hg] at h
  | some gateway =>
    simp only [hg] at h
    cases hp : env.urlParse (env.urlString gateway) with
    | error err => simp [hp] at h
    | ok parsed =>
      simp only [hp] at h
      cases hd : debugBody env (passReader body).1 (passReader body).2 with
      | panic => simp [hd] at h
      | failure err => simp [hd] at h
      | value r =>
        obtain ⟨store, bodyDebug, body2⟩ := r
        simp only [hd] at h
        cases hn : httpNewRequest env store method (env.urlString
            { parsed with Path := env.pathJoin parsed.Path path,
                          RawQuery := env.queryEncode query }) body2 with
        | panic => simp [hn] at h
        | failure err => simp [hn] at h
        | value req0 =>
          simp only [hn, Prod.mk.injEq, Outcome.value.injEq] at h
          exact ⟨store, bodyDebug, body2, _, req0, rfl, hn, h.2.symm,
            by rw [← h.2]; exact h.1.symm⟩

theorem attachBody_header (req : Request) (r : Reader) :
    (attachBody req r).Header = req.Header := by
  unfold attachBody
  cases r.kind <;> simp only <;> split <;> rfl

theorem httpNewRequest_header (env : Env) (store : ReaderStore) (method url : String)
    (body : Option Nat) (req : Request)
    (h : httpNewRequest env store method url body = .value req) : req.Header = [] := by
  unfold httpNewRequest at h
  split at h
  · split at h
    · cases body with
      | none =>
        simp only [Outcome.value.injEq] at h
        rw [← h]; rfl
      | some ref =>
        simp only at h
        cases hs : store[ref]? with
        | none => simp [hs] at h
        | some r =>
          simp only [hs, Outcome.value.injEq] at h
          rw [← h, attachBody_header]; rfl
    · simp at h
  · simp at h

/-- The headers of the request `finishRequest` hands to the authenticator. -/
theorem finishRequest_headers (c : Client) (body : Option Nat) (req0 : Request)
    (hempty : req0.Header = [])
    (hct : ∀ r, (c.ClientAuth.Set r).1.Header.values "Content-Type" = r.Header.values "Content-Type")
    (hua : ∀ r, (c.ClientAuth.Set r).1.Header.values "User-Agent" = r.Header.values "User-Agent") :
    ((finishRequest c body req0).Header.values "Content-Type" =
      if body.isSome then some ["application/json"] else none) ∧
    ((finishRequest c body req0).Header.values "User-Agent" =
      if c.UserAgent ≠ "" then some [c.UserAgent] else none) := by
  have hne1 : ("Content-Type" : String) ≠ "User-Agent" := by decide
  have hne2 : ("User-Agent" : String) ≠ "Content-Type" := by decide
  have hnil : ∀ k, Header.values ([] : Header) k = none := fun _ => rfl
  unfold finishRequest
  simp only [hct, hua]
  by_cases hb : body.isSome = true <;> by_cases hu : c.UserAgent = ""
  · simp only [hb, hu, if_true, ne_eq, not_true_eq_false, if_false, hempty]
    exact ⟨Header.values_Set_self _ _ _, by rw [Header.values_Set_other _ _ _ _ hne2, hnil]⟩
  · simp only [hb, hu, if_true, ne_eq, not_false_eq_true, hempty]
    exact ⟨by rw [Header.values_Set_other _ _ _ _ hne1, Header.values_Set_self],
      Header.values_Set_self _ _ _⟩
  · simp only [hb, hu, ne_eq, not_true_eq_false, Bool.false_eq_true, if_false, hempty]
    exact ⟨hnil _, hnil _⟩
  · simp only [hb, hu, if_true, ne_eq, not_false_eq_true, Bool.false_eq_true, if_false, hempty]
    exact ⟨by rw [Header.values_Set_other _ _ _ _ hne1, hnil], Header.values_Set_self _ _ _⟩

/-- C10, as the code has it: a client whose `UserAgent` is empty builds a
request that carries no `User-Agent` header. -/
theorem newRequest_without_user_agent :
    ∃ w req, newRequest (sampleEnv "") gatewayWorld (gatewayClient noAuth "") "GET"
        "/system/functions" [] none = (w, Outcome.value req) ∧
      req.Header.values "User-Agent" = none := by
  refine ⟨_, _, rfl, rfl⟩

/-- C10, amended. For a successful `newRequest` and an authenticator that
leaves `Content-Type` and `User-Agent` alone: the request has
`Content-Type: application/json` exactly when a body was supplied; it carries
`User-Agent` equal to the client's `UserAgent` when that is non-empty, and no
`User-Agent` header when it is empty; and the `UserAgent` of a client returned
by `NewClient` is non-empty and starts with `faas-cli/`. -/
theorem newRequest_header_defaults (env : Env) (w w' : World) (c : Client)
    (method path : String) (query : Values) (body : Option Reader) (req : Request)
    (h : newRequest env w c method path query body = (w', Outcome.value req))
    (hct : ∀ r, (c.ClientAuth.Set r).1.Header.values "Content-Type" = r.Header.values "Content-Type")
    (hua : ∀ r, (c.ClientAuth.Set r).1.Header.values "User-Agent" = r.Header.values "User-Agent") :
    (req.Header.values "Content-Type" = some ["application/json"] ↔ body.isSome = true) ∧
    (c.UserAgent ≠ "" → req.Header.values "User-Agent" = some [c.UserAgent]) ∧
    (c.UserAgent = "" → req.Header.values "User-Agent" = none) ∧
    (∀ (env0 : Env) (w0 w1 : World) (auth : ClientAuth) (g : String)
        (transport : Option RoundTripper) (timeout : Option Int) (c1 : Client),
      NewClient env0 w0 auth g transport timeout = (w1, Outcome.value c1) →
        c1.UserAgent ≠ "" ∧ c1.UserAgent = "faas-cli/" ++ env0.buildVersion) := by
  obtain ⟨store, bodyDebug, body2, target, req0, hd, hn, hreq, -⟩ :=
    newRequest_value env w w' c method path query body req h
  have hsome := debugBody_isSome env body store bodyDebug body2 hd
  obtain ⟨hct', hua'⟩ := finishRequest_headers c body2 req0
    (httpNewRequest_header env store method _ body2 req0 hn) hct hua
  rw [← hreq, hsome] at hct'
  rw [← hreq] at hua'
  refine ⟨?_, ?_, ?_, ?_⟩
  · rw [hct']
    cases body.isSome <;> simp
  · intro hu; rw [hua', if_pos hu]
  · intro hu
    rw [hua', if_neg (by simpa using hu)]
  · intro env0 w0 w1 auth g transport timeout c1 hc
    unfold NewClient at hc
    cases hp : env0.urlParse (trimRight g "/") with
    | error err => simp [hp] at hc
    | ok parsed =>
      simp only [hp, World.alloc, Prod.mk.injEq, Outcome.value.injEq] at hc
      obtain ⟨_, rfl⟩ := hc
      refine ⟨?_, rfl⟩
      intro he
      have := congrArg String.length he
      simp [String.length_append] at this
      exact absurd this.1 (by decide)

theorem newRequest_header_defaults_witness :
    ∃ w req, newRequest (sampleEnv "") gatewayWorld (gatewayClient basicAuth "faas-cli/dev") "PUT"
        "/system/functions" [] (some ⟨.bytesReader, "{}", none⟩) = (w, Outcome.value req) ∧
      req.Header.values "Content-Type" = some ["application/json"] ∧
      req.Header.values "User-Agent" = some ["faas-cli/dev"] :=
  have hne1 : ("Content-Type" : String) ≠ "Authorization" := by decide
  have hne2 : ("User-Agent" : String) ≠ "Authorization" := by decide
  have hthm := newRequest_header_defaults (sampleEnv "") gatewayWorld _
    (gatewayClient basicAuth "faas-cli/dev") "PUT" "/system/functions" [] (some ⟨.bytesReader, "{}", none⟩) _ rfl
    (fun r => Header.values_Set_other r.Header "Authorization" _ "Content-Type" hne1)
    (fun r => Header.values_Set_other r.Header "Authorization" _ "User-Agent" hne2)
  ⟨_, _, rfl, hthm.1.mpr rfl, hthm.2.1 (by decide)⟩

/-- C2, on the code: the authenticator's error is dropped.  With an
authenticator whose `Set` fails on every request, `newRequest` still returns a
request and a nil error; in general its result is that of the same client with
the authenticator's errors erased. -/
theorem newRequest_drops_auth_error :
    (∀ r, (failingAuth.Set r).2 = some "no credentials available") ∧
    (∃ w req, newRequest (sampleEnv "") gatewayWorld (gatewayClient failingAuth "faas-cli/dev")
        "GET" "/system/functions" [] none = (w, Outcome.value req)) ∧
    (∀ (env : Env) (w : World) (c : Client) (method path : String) (query : Values)
        (body : Option Reader),
      newRequest env w c method path query body =
        newRequest env w { c with ClientAuth := ⟨fun r => ((c.ClientAuth.Set r).1, none)⟩ }
          method path query body) :=
  ⟨fun _ => rfl, ⟨_, _, rfl⟩, fun _ _ _ _ _ _ _ => rfl⟩

theorem header_keys_of_values_none (h : Header) (key : String)
    (hnone : h.values key = none) : ∀ kv ∈ h, kv.1 ≠ key := by
  intro kv hkv hk
  unfold Header.values at hnone
  rw [Option.map_eq_none', List.find?_eq_none] at hnone
  exact hnone kv hkv (by simp [hk])

theorem traceRequest_stdout (env : Env) (w : World) (req : Request) (bodyDebug : String)
    (hdebug : env.Getenv "FAAS_DEBUG" = "1") :
    (traceRequest env w req bodyDebug).stdout =
      w.stdout ++ [req.Method ++ " " ++ env.urlString req.URL ++ "\n"] ++
        req.Header.map (fun kv => traceHeaderLine kv.1 kv.2) ++
        (if bodyDebug.length > 0 then [bodyDebug ++ "\n"] else []) := by
  unfold traceRequest
  rw [if_pos hdebug]
  simp only [traceRequest_header_fold]
  split
  · show (List.foldl (fun (w : World) (s : String) => w.print s) _ _).stdout ++ _ = _
    rw [foldl_print_stdout]; rfl
  · rw [foldl_print_stdout]; simp [World.print]

/-- C8, on the code: with `FAAS_DEBUG=1` and no `Authorization` header on the
request, the trace has no line for `Authorization` at all: every header line is
the plain `key: [values]` line.  `[NOT_SET]` is printed only for an
`Authorization` key that is present with no values. -/
theorem newRequest_trace_without_authorization :
    (∃ w req, newRequest (sampleEnv "1") gatewayWorld (gatewayClient noAuth "faas-cli/dev")
        "GET" "/system/functions" [] none = (w, Outcome.value req) ∧
      req.Header.values "Authorization" = none ∧
      w.stdout = ["GET http://127.0.0.1:8080/system/functions\n",
                  "User-Agent: [faas-cli/dev]\n"]) ∧
    traceHeaderLine "Authorization" [] = "Authorization: [NOT_SET]\n" ∧
    (∀ (env : Env) (w : World) (req : Request) (bodyDebug : String),
      env.Getenv "FAAS_DEBUG" = "1" → req.Header.values "Authorization" = none →
        (traceRequest env w req bodyDebug).stdout =
          w.stdout ++ [req.Method ++ " " ++ env.urlString req.URL ++ "\n"] ++
            req.Header.map (fun kv => kv.1 ++ ": " ++ fmtStrings kv.2 ++ "\n") ++
            (if bodyDebug.length > 0 then [bodyDebug ++ "\n"] else [])) := by
  refine ⟨⟨_, _, rfl, rfl, rfl⟩, rfl, ?_⟩
  intro env w req bodyDebug hdebug hnone
  rw [traceRequest_stdout env w req bodyDebug hdebug]
  congr 2
  apply List.map_congr_left
  intro kv hkv
  unfold traceHeaderLine
  rw [if_neg (header_keys_of_values_none req.Header "Authorization" hnone kv hkv)]

theorem cutList_blank_append (l r : List Char) (hl : ' ' ∉ l) :
    cutList [' '] (l ++ ' ' :: r) = some (l, r) := by
  induction l with
  | nil => simp [cutList, List.isPrefixOf]
  | cons ch t ih =>
    have hch : ch ≠ ' ' := fun e => hl (by simp [e])
    have ht : ' ' ∉ t := fun e => hl (List.mem_cons_of_mem _ e)
    have hne : (' ' == ch) = false := by simpa using fun e : ' ' = ch => hch e.symm
    simp [cutList, List.isPrefixOf, hne, ih ht]

theorem cutList_sound (sep : List Char) (s before after : List Char)
    (h : cutList sep s = some (before, after)) : s = before ++ sep ++ after := by
  induction s generalizing before after with
  | nil =>
    unfold cutList at h
    split at h
    · rename_i hs
      simp only [Option.some.injEq, Prod.mk.injEq] at h
      rw [← h.1, ← h.2, hs]; rfl
    · simp at h
  | cons ch t ih =>
    unfold cutList at h
    split at h
    · rename_i hp
      simp only [Option.some.injEq, Prod.mk.injEq] at h
      rw [← h.1, ← h.2]
      have := List.prefix_iff_eq_append.mp (List.isPrefixOf_iff_prefix.mp hp)
      simpa using this.symm
    · cases hc : cutList sep t with
      | none => simp [hc] at h
      | some r =>
        simp only [hc, Option.map_some', Option.some.injEq, Prod.mk.injEq] at h
        rw [← h.1, ← h.2, ih r.1 r.2 (by rw [hc])]
        simp

/-- What the redaction prints for a value `scheme`, blank, `rest`. -/
theorem redactAuthorization_scheme (scheme rest : String) (others : List String)
    (hs : ' ' ∉ scheme.data) :
    redactAuthorization ((scheme ++ " " ++ rest) :: others) =
      if scheme == "Basic" || scheme == "Bearer" then scheme ++ " REDACTED" else "[REDACTED]" := by
  have hcut : cut (scheme ++ " " ++ rest) " " = (scheme, rest, true) := by
    unfold cut
    have : (scheme ++ " " ++ rest).data = scheme.data ++ ' ' :: rest.data := by
      simp [String.data_append]
    rw [this]
    show (match cutList [' '] (scheme.data ++ ' ' :: rest.data) with
      | some (before, after) => (String.mk before, String.mk after, true)
      | none => (scheme ++ " " ++ rest, "", false)) = _
    rw [cutList_blank_append _ _ hs]
  unfold redactAuthorization
  simp only [hcut, Bool.true_and]

/-- A value that is redacted to its scheme is that scheme, a blank and more text. -/
theorem redactAuthorization_other (v0 : String) (others : List String)
    (hbasic : ∀ creds : String, v0 ≠ "Basic " ++ creds)
    (hbearer : ∀ creds : String, v0 ≠ "Bearer " ++ creds) :
    redactAuthorization (v0 :: others) = "[REDACTED]" := by
  unfold redactAuthorization
  simp only
  cases hc : cutList [' '] v0.data with
  | none =>
    have : cut v0 " " = (v0, "", false) := by
      unfold cut
      show (match cutList [' '] v0.data with
        | some (before, after) => (String.mk before, String.mk after, true)
        | none => (v0, "", false)) = _
      rw [hc]
    rw [this]; rfl
  | some r =>
    obtain ⟨before, after⟩ := r
    have hv : v0 = String.mk before ++ " " ++ String.mk after := by
      apply String.ext
      rw [cutList_sound _ _ _ _ hc]
      simp [String.data_append]
    have : cut v0 " " = (String.mk before, String.mk after, true) := by
      unfold cut
      show (match cutList [' '] v0.data with
        | some (before, after) => (String.mk before, String.mk after, true)
        | none => (v0, "", false)) = _
      rw [hc]
    rw [this]
    simp only [Bool.true_and]
    split
    · rename_i hl
      simp only [Bool.or_eq_true, beq_iff_eq] at hl
      rcases hl with hl | hl
      · exact absurd (by rw [hv, hl]; rfl) (hbasic (String.mk after))
      · exact absurd (by rw [hv, hl]; rfl) (hbearer (String.mk after))
    · rfl

theorem line_after_request_line {α : Type} (before : List String) (first : String)
    (entries : List α) (f : α → String) (after : List String) (i : Nat) (e : α)
    (h : entries[i]? = some e) :
    (before ++ [first] ++ entries.map f ++ after)[before.length + 1 + i]? = some (f e) := by
  have hlt : i < (entries.map f).length := by
    rw [List.length_map]
    exact (List.getElem?_eq_some.mp h).1
  rw [List.append_assoc (before ++ [first]), List.getElem?_append_right (by simp)]
  have hidx : before.length + 1 + i - (before ++ [first]).length = i := by simp
  rw [hidx, List.getElem?_append_left hlt, List.getElem?_map, h]
  rfl

/-- What a successful `newRequest` has printed when `FAAS_DEBUG=1`. -/
theorem newRequest_stdout (env : Env) (w w' : World) (c : Client) (method path : String)
    (query : Values) (body : Option Reader) (req : Request)
    (hdebug : env.Getenv "FAAS_DEBUG" = "1")
    (h : newRequest env w c method path query body = (w', Outcome.value req)) :
    ∃ store bodyDebug body2,
      debugBody env (passReader body).1 (passReader body).2 = .value (store, bodyDebug, body2) ∧
      w'.stdout = w.stdout ++ [req.Method ++ " " ++ env.urlString req.URL ++ "\n"] ++
        req.Header.map (fun kv => traceHeaderLine kv.1 kv.2) ++
        (if bodyDebug.length > 0 then [bodyDebug ++ "\n"] else []) := by
  obtain ⟨store, bodyDebug, body2, target, req0, hd, -, -, hw⟩ :=
    newRequest_value env w w' c method path query body req h
  refine ⟨store, bodyDebug, body2, hd, ?_⟩
  rw [hw, traceRequest_stdout _ _ _ _ hdebug]

/-- The line `newRequest` prints for an `Authorization` entry of the request. -/
theorem newRequest_authorization_line (env : Env) (w w' : World) (c : Client)
    (method path : String) (query : Values) (body : Option Reader) (req : Request)
    (hdebug : env.Getenv "FAAS_DEBUG" = "1")
    (h : newRequest env w c method path query body = (w', Outcome.value req))
    (i : Nat) (v : List String) (hi : req.Header[i]? = some ("Authorization", v)) :
    w'.stdout[w.stdout.length + 1 + i]? =
      some ("Authorization" ++ ": " ++ redactAuthorization v ++ "\n") := by
  obtain ⟨store, bodyDebug, body2, -, hout⟩ :=
    newRequest_stdout env w w' c method path query body req hdebug h
  rw [hout, line_after_request_line _ _ _ _ _ i _ hi]
  rfl

/-- C3. With `FAAS_DEBUG=1`, what a successful `newRequest` prints is the
request line, one line for each header entry of the request and the body; the
line it prints for an `Authorization` entry shows the scheme only:
`Basic <creds>` gives `Basic REDACTED`, `Bearer <creds>` gives
`Bearer REDACTED`, every other first value gives the placeholder `[REDACTED]`;
and for two traced calls whose `Authorization` values differ only after the
first blank of the first value, or in later values, the two lines are the same. -/
theorem authorization_trace_redacted (env : Env) (w w' : World) (c : Client)
    (method path : String) (query : Values) (body : Option Reader) (req : Request)
    (hdebug : env.Getenv "FAAS_DEBUG" = "1")
    (h : newRequest env w c method path query body = (w', Outcome.value req)) :
    (∃ bodyLines, w'.stdout =
      w.stdout ++ [req.Method ++ " " ++ env.urlString req.URL ++ "\n"] ++
        req.Header.map (fun kv => traceHeaderLine kv.1 kv.2) ++ bodyLines) ∧
    (∀ (i : Nat) (creds : String) (others : List String),
      req.Header[i]? = some ("Authorization", ("Basic " ++ creds) :: others) →
        w'.stdout[w.stdout.length + 1 + i]? = some "Authorization: Basic REDACTED\n") ∧
    (∀ (i : Nat) (creds : String) (others : List String),
      req.Header[i]? = some ("Authorization", ("Bearer " ++ creds) :: others) →
        w'.stdout[w.stdout.length + 1 + i]? = some "Authorization: Bearer REDACTED\n") ∧
    (∀ (i : Nat) (v0 : String) (others : List String),
      req.Header[i]? = some ("Authorization", v0 :: others) →
      (∀ creds : String, v0 ≠ "Basic " ++ creds) → (∀ creds : String, v0 ≠ "Bearer " ++ creds) →
        w'.stdout[w.stdout.length + 1 + i]? = some "Authorization: [REDACTED]\n") ∧
    (∀ (env2 : Env) (w2 w2' : World) (c2 : Client) (method2 path2 : String) (query2 : Values)
        (body2 : Option Reader) (req2 : Request),
      env2.Getenv "FAAS_DEBUG" = "1" →
      newRequest env2 w2 c2 method2 path2 query2 body2 = (w2', Outcome.value req2) →
      ∀ (i j : Nat) (v0 v0' : String) (others others' : List String),
        req.Header[i]? = some ("Authorization", v0 :: others) →
        req2.Header[j]? = some ("Authorization", v0' :: others') →
        (v0 = v0' ∨ ∃ scheme rest rest' : String, ' ' ∉ scheme.data ∧
          v0 = scheme ++ " " ++ rest ∧ v0' = scheme ++ " " ++ rest') →
        w'.stdout[w.stdout.length + 1 + i]? = w2'.stdout[w2.stdout.length + 1 + j]?) := by
  have hline := newRequest_authorization_line env w w' c method path query body req hdebug h
  refine ⟨?_, ?_, ?_, ?_, ?_⟩
  · obtain ⟨_, bodyDebug, _, -, hout⟩ :=
      newRequest_stdout env w w' c method path query body req hdebug h
    exact ⟨_, hout⟩
  · intro i creds others hi
    have hr := redactAuthorization_scheme "Basic" creds others (by decide)
    have e : ("Basic " : String) ++ creds = "Basic" ++ " " ++ creds := by
      rw [String.append_assoc]; rfl
    rw [hline i _ hi, e, hr]; rfl
  · intro i creds others hi
    have hr := redactAuthorization_scheme "Bearer" creds others (by decide)
    have e : ("Bearer " : String) ++ creds = "Bearer" ++ " " ++ creds := by
      rw [String.append_assoc]; rfl
    rw [hline i _ hi, e, hr]; rfl
  · intro i v0 others hi hbasic hbearer
    rw [hline i _ hi, redactAuthorization_other v0 others hbasic hbearer]; rfl
  · intro env2 w2 w2' c2 method2 path2 query2 body2 req2 hdebug2 h2 i j v0 v0' others others'
      hi hj hsame
    rw [hline i _ hi,
      newRequest_authorization_line env2 w2 w2' c2 method2 path2 query2 body2 req2 hdebug2 h2
        j _ hj]
    rcases hsame with rfl | ⟨scheme, rest, rest', hs, rfl, rfl⟩
    · rfl
    · rw [redactAuthorization_scheme _ _ _ hs, redactAuthorization_scheme _ _ _ hs]

theorem authorization_trace_redacted_witness :
    ∃ w req, newRequest (sampleEnv "1") gatewayWorld (gatewayClient basicAuth "faas-cli/dev")
        "GET" "/system/functions" [] none = (w, Outcome.value req) ∧
      req.Header[1]? = some ("Authorization", ["Basic YWRtaW46c2VjcmV0"]) ∧
      w.stdout[2]? = some "Authorization: Basic REDACTED\n" :=
  ⟨_, _, rfl, rfl,
    (authorization_trace_redacted (sampleEnv "1") gatewayWorld _
      (gatewayClient basicAuth "faas-cli/dev") "GET" "/system/functions" [] none _ rfl rfl).2.1
      1 "YWRtaW46c2VjcmV0" [] rfl⟩

theorem utf8ByteSize_go_pos (ch : Char) (cs : List Char) :
    0 < String.utf8ByteSize.go (ch :: cs) := by
  have := ch.utf8Size_pos
  simp only [String.utf8ByteSize.go]
  omega

theorem utf8ByteSize_eq_zero (s : String) (h : s.utf8ByteSize = 0) : s = "" := by
  cases s with
  | mk data =>
    cases data with
    | nil => rfl
    | cons ch cs =>
      have := utf8ByteSize_go_pos ch cs
      simp only [String.utf8ByteSize] at h
      omega

/-- The body `http.NewRequest` gives the request delivers what the reader it
was given delivers. -/
theorem attachBody_body (req : Request) (r : Reader) (hreq : req.GetBody = none)
    (hr : r.failure = none) :
    (attachBody req r).Body.map Reader.readAll = some (.ok r.unread) := by
  have hplain : (some r).map Reader.readAll = some (.ok r.unread) := by
    simp [Reader.readAll, hr]
  have hknown : ∀ len : Int, len = r.unread.utf8ByteSize →
      (if (some r.unread).isSome && len == 0 then some httpNoBody else some r).map
        Reader.readAll = some (.ok r.unread) := by
    intro len hlen
    split
    · rename_i hzero
      simp only [Option.isSome_some, Bool.true_and, beq_iff_eq] at hzero
      have : r.unread = "" := utf8ByteSize_eq_zero _ (by rw [hlen] at hzero; exact_mod_cast hzero)
      rw [this]; rfl
    · exact hplain
  unfold attachBody
  cases hk : r.kind
  case bytesBuffer =>
    have := hknown _ rfl
    simp only
    split <;> simp_all
  case bytesReader =>
    have := hknown _ rfl
    simp only
    split <;> simp_all
  case stringsReader =>
    have := hknown _ rfl
    simp only
    split <;> simp_all
  all_goals
    simp only [hreq, Option.isSome_none, Bool.false_and, Bool.false_eq_true, if_false]
    exact hplain

theorem debugBody_on (env : Env) (r : Reader) (hr : r.failure = none)
    (hon : env.Getenv "FAAS_DEBUG" = "1") :
    debugBody env (passReader (some r)).1 (passReader (some r)).2 =
      .value ([{ r with unread := "" }, ioNopCloser (stringsNewReader r.unread)],
        r.unread, some 1) := by
  unfold debugBody
  rw [if_pos hon]
  simp [passReader, ioCopy, hr, ReaderStore.alloc]

theorem debugBody_off (env : Env) (store : ReaderStore) (body : Option Nat)
    (hoff : env.Getenv "FAAS_DEBUG" ≠ "1") :
    debugBody env store body = .value (store, "", body) := by
  unfold debugBody
  rw [if_neg hoff]

theorem httpNewRequest_some (env : Env) (store : ReaderStore) (method url : String)
    (ref : Nat) (r : Reader) (hs : store[ref]? = some r) :
    httpNewRequest env store method url (some ref) =
      if env.validMethod method then
        match env.urlParse url with
        | .ok u => .value (attachBody (emptyRequest method u) r)
        | .error err => .failure err
      else .failure ("net/http: invalid method " ++ env.quote method) := by
  unfold httpNewRequest
  split
  · cases env.urlParse url with
    | error err => rfl
    | ok u => simp only [hs]
  · rfl

theorem httpNewRequest_some_value (env : Env) (store : ReaderStore) (method url : String)
    (ref : Nat) (r : Reader) (req0 : Request) (hs : store[ref]? = some r)
    (h : httpNewRequest env store method url (some ref) = .value req0) :
    ∃ u, env.validMethod method = true ∧ env.urlParse url = .ok u ∧
      req0 = attachBody (emptyRequest method u) r := by
  rw [httpNewRequest_some env store method url ref r hs] at h
  split at h
  · rename_i hv
    cases hp : env.urlParse url with
    | error err => simp [hp] at h
    | ok u =>
      simp only [hp, Outcome.value.injEq] at h
      exact ⟨u, hv, rfl, h.symm⟩
  · simp at h

/-- The steps of a successful `newRequest`. -/
theorem newRequest_value_parts (env : Env) (w w' : World) (c : Client) (method path : String)
    (query : Values) (body : Option Reader) (req : Request)
    (h : newRequest env w c method path query body = (w', Outcome.value req)) :
    ∃ gateway parsed store bodyDebug body2 req0,
      w.urls[c.GatewayURL]? = some gateway ∧
      env.urlParse (env.urlString gateway) = .ok parsed ∧
      debugBody env (passReader body).1 (passReader body).2 = .value (store, bodyDebug, body2) ∧
      httpNewRequest env store method (env.urlString
        { parsed with Path := env.pathJoin parsed.Path path,
                      RawQuery := env.queryEncode query }) body2 = .value req0 ∧
      req = finishRequest c body2 req0 := by
  rw [newRequest_eq] at h
  cases hg : w.urls[c.GatewayURL]? with
  | none => simp [hg] at h
  | some gateway =>
    simp only [hg] at h
    cases hp : env.urlParse (env.urlString gateway) with
    | error err => simp [hp] at h
    | ok parsed =>
      simp only [hp] at h
      cases hd : debugBody env (passReader body).1 (passReader body).2 with
      | panic => simp [hd] at h
      | failure err => simp [hd] at h
      | value r =>
        obtain ⟨store, bodyDebug, body2⟩ := r
        simp only [hd] at h
        cases hn : httpNewRequest env store method (env.urlString
            { parsed with Path := env.pathJoin parsed.Path path,
                          RawQuery := env.queryEncode query }) body2 with
        | panic => simp [hn] at h
        | failure err => simp [hn] at h
        | value req0 =>
          simp only [hn, Prod.mk.injEq, Outcome.value.injEq] at h
          exact ⟨gateway, parsed, store, bodyDebug, body2, req0, rfl, hp, rfl, hn, h.2.symm⟩

/-- The request that `newRequest` returns once its steps succeed. -/
theorem newRequest_of_parts (env : Env) (w : World) (c : Client) (method path : String)
    (query : Values) (body : Option Reader) (gateway parsed : URL) (store : ReaderStore)
    (bodyDebug : String) (body2 : Option Nat) (req0 : Request)
    (hg : w.urls[c.GatewayURL]? = some gateway)
    (hp : env.urlParse (env.urlString gateway) = .ok parsed)
    (hd : debugBody env (passReader body).1 (passReader body).2 =
      .value (store, bodyDebug, body2))
    (hn : httpNewRequest env store method (env.urlString
        { parsed with Path := env.pathJoin parsed.Path path,
                      RawQuery := env.queryEncode query }) body2 = .value req0) :
    (newRequest env w c method path query body).2 = .value (finishRequest c body2 req0) := by
  rw [newRequest_eq, hg]
  simp only [hp, hd, hn]

theorem finishRequest_body (c : Client) (body : Option Nat) (req : Request) :
    ∃ req0 : Request, req0.Body = req.Body ∧
      finishRequest c body req = (c.ClientAuth.Set req0).1 := by
  unfold finishRequest
  refine ⟨_, ?_, rfl⟩
  by_cases hb : body.isSome = true <;> by_cases hu : c.UserAgent = "" <;> simp [hb, hu]

/-- The body of the request `newRequest` returns, given the reader that
`http.NewRequest` was handed. -/
theorem finishRequest_delivers (c : Client) (body : Option Nat) (method : String) (u : URL)
    (r : Reader) (hr : r.failure = none) :
    (∃ req0 : Request, req0.Body.map Reader.readAll = some (.ok r.unread) ∧
      finishRequest c body (attachBody (emptyRequest method u) r) = (c.ClientAuth.Set req0).1) ∧
    ((∀ x, (c.ClientAuth.Set x).1.Body = x.Body) →
      (finishRequest c body (attachBody (emptyRequest method u) r)).Body.map Reader.readAll =
        some (.ok r.unread)) := by
  obtain ⟨req0, hbody, hfin⟩ := finishRequest_body c body (attachBody (emptyRequest method u) r)
  have hcontent : req0.Body.map Reader.readAll = some (.ok r.unread) := by
    rw [hbody]
    exact attachBody_body _ r rfl hr
  refine ⟨⟨req0, hcontent, hfin⟩, ?_⟩
  intro hkeep
  rw [hfin, hkeep, hcontent]

/-- C9. Reading the body for the trace does not consume it for the request.
For a body reader that delivers the text `b` without error: with `FAAS_DEBUG=1`
the reader passed in is read to its end, `b` is the text captured and printed
for the trace, and the request is built on a new reader over `b`; so the request
`newRequest` returns is what the authenticator made of a request whose body
delivers `b`, and has such a body whenever the authenticator leaves the body
alone, exactly as the request built from the same inputs with tracing off,
which exists whenever the traced one does, and conversely. -/
theorem debug_body_not_consumed (env : Env) (w : World) (c : Client) (method path : String)
    (query : Values) (r : Reader) (hr : r.failure = none)
    (hoff : env.Getenv "FAAS_DEBUG" ≠ "1") :
    debugBody (env.setenv "FAAS_DEBUG" "1") (passReader (some r)).1 (passReader (some r)).2 =
      .value ([{ r with unread := "" }, ioNopCloser (stringsNewReader r.unread)],
        r.unread, some 1) ∧
    (ioNopCloser (stringsNewReader r.unread)).readAll = .ok r.unread ∧
    (∀ (w1 : World) (req1 : Request),
      newRequest (env.setenv "FAAS_DEBUG" "1") w c method path query (some r) =
          (w1, Outcome.value req1) →
        (∃ req0 : Request, req0.Body.map Reader.readAll = some (.ok r.unread) ∧
          req1 = (c.ClientAuth.Set req0).1) ∧
        ((∀ x, (c.ClientAuth.Set x).1.Body = x.Body) →
          req1.Body.map Reader.readAll = some (.ok r.unread)) ∧
        w1.stdout = w.stdout ++ [req1.Method ++ " " ++ env.urlString req1.URL ++ "\n"] ++
          req1.Header.map (fun kv => traceHeaderLine kv.1 kv.2) ++
          (if r.unread.length > 0 then [r.unread ++ "\n"] else []) ∧
        ∃ (w2 : World) (req2 : Request),
          newRequest env w c method path query (some r) = (w2, Outcome.value req2) ∧
          (∃ req0 : Request, req0.Body.map Reader.readAll = some (.ok r.unread) ∧
            req2 = (c.ClientAuth.Set req0).1) ∧
          ((∀ x, (c.ClientAuth.Set x).1.Body = x.Body) →
            req2.Body.map Reader.readAll = req1.Body.map Reader.readAll)) ∧
    (∀ (w2 : World) (req2 : Request),
      newRequest env w c method path query (some r) = (w2, Outcome.value req2) →
        ∃ (w1 : World) (req1 : Request),
          newRequest (env.setenv "FAAS_DEBUG" "1") w c method path query (some r) =
            (w1, Outcome.value req1)) := by
  have hon : (env.setenv "FAAS_DEBUG" "1").Getenv "FAAS_DEBUG" = "1" := by
    simp [Env.setenv, Env.Getenv]
  have hdOn := debugBody_on (env.setenv "FAAS_DEBUG" "1") r hr hon
  have hdOff := debugBody_off env (passReader (some r)).1 (passReader (some r)).2 hoff
  have hfresh : (ioNopCloser (stringsNewReader r.unread)).failure = none := rfl
  have hstoreOn : ([{ r with unread := "" }, ioNopCloser (stringsNewReader r.unread)] :
      ReaderStore)[1]? = some (ioNopCloser (stringsNewReader r.unread)) := rfl
  have hstoreOff : ((passReader (some r)).1)[0]? = some r := rfl
  refine ⟨hdOn, rfl, ?_, ?_⟩
  · intro w1 req1 h
    obtain ⟨gateway, parsed, store, bodyDebug, body2, req0, hg, hp, hd, hn, hreq⟩ :=
      newRequest_value_parts _ w w1 c method path query (some r) req1 h
    rw [hdOn] at hd
    simp only [Outcome.value.injEq, Prod.mk.injEq] at hd
    obtain ⟨hstore, hdebugText, hbody2⟩ := hd
    subst hstore hdebugText hbody2
    obtain ⟨u, hvalid, hparse, hreq0⟩ :=
      httpNewRequest_some_value _ _ method _ 1 _ req0 hstoreOn hn
    subst hreq0
    have hOnBody := finishRequest_delivers c (some 1) method u
      (ioNopCloser (stringsNewReader r.unread)) hfresh
    have hOffBody := finishRequest_delivers c (some 0) method u r hr
    have hnOff : httpNewRequest env (passReader (some r)).1 method (env.urlString
        { parsed with Path := env.pathJoin parsed.Path path,
                      RawQuery := env.queryEncode query }) (some 0) =
        .value (attachBody (emptyRequest method u) r) := by
      rw [httpNewRequest_some env _ method _ 0 r hstoreOff]
      have hvalid' : env.validMethod method = true := hvalid
      rw [if_pos hvalid']
      have hparse' : env.urlParse (env.urlString
          { parsed with Path := env.pathJoin parsed.Path path,
                        RawQuery := env.queryEncode query }) = .ok u := hparse
      rw [hparse']
    have hoffCall := newRequest_of_parts env w c method path query (some r) gateway parsed
      _ _ _ _ hg hp hdOff hnOff
    refine ⟨?_, ?_, ?_, ?_⟩
    · rw [hreq]; exact hOnBody.1
    · intro hkeep; rw [hreq]; exact hOnBody.2 hkeep
    · obtain ⟨store', bodyDebug', body2', hd', hout⟩ :=
        newRequest_stdout _ w w1 c method path query (some r) req1 hon h
      rw [hdOn] at hd'
      simp only [Outcome.value.injEq, Prod.mk.injEq] at hd'
      rw [hout, ← hd'.2.1]
      rfl
    · refine ⟨(newRequest env w c method path query (some r)).1, _,
        Prod.ext rfl hoffCall, hOffBody.1, ?_⟩
      intro hkeep
      have hone := hOnBody.2 hkeep
      rw [← hreq] at hone
      exact (hOffBody.2 hkeep).trans hone.symm
  · intro w2 req2 h
    obtain ⟨gateway, parsed, store, bodyDebug, body2, req0, hg, hp, hd, hn, hreq⟩ :=
      newRequest_value_parts _ w w2 c method path query (some r) req2 h
    rw [hdOff] at hd
    simp only [Outcome.value.injEq, Prod.mk.injEq] at hd
    obtain ⟨hstore, hdebugText, hbody2⟩ := hd
    subst hstore hdebugText hbody2
    obtain ⟨u, hvalid, hparse, hreq0⟩ :=
      httpNewRequest_some_value _ _ method _ 0 _ req0 hstoreOff hn
    have hnOn : httpNewRequest (env.setenv "FAAS_DEBUG" "1")
        [{ r with unread := "" }, ioNopCloser (stringsNewReader r.unread)] method
        ((env.setenv "FAAS_DEBUG" "1").urlString
          { parsed with Path := (env.setenv "FAAS_DEBUG" "1").pathJoin parsed.Path path,
                        RawQuery := (env.setenv "FAAS_DEBUG" "1").queryEncode query })
        (some 1) =
        .value (attachBody (emptyRequest method u) (ioNopCloser (stringsNewReader r.unread))) := by
      rw [httpNewRequest_some _ _ method _ 1 _ hstoreOn]
      have hvalid' : (env.setenv "FAAS_DEBUG" "1").validMethod method = true := hvalid
      rw [if_pos hvalid']
      have hparse' : (env.setenv "FAAS_DEBUG" "1").urlParse
          ((env.setenv "FAAS_DEBUG" "1").urlString
            { parsed with Path := (env.setenv "FAAS_DEBUG" "1").pathJoin parsed.Path path,
                          RawQuery := (env.setenv "FAAS_DEBUG" "1").queryEncode query }) =
          .ok u := hparse
      rw [hparse']
    have honCall := newRequest_of_parts (env.setenv "FAAS_DEBUG" "1") w c method path query
      (some r) gateway parsed _ _ _ _ hg hp hdOn hnOn
    exact ⟨_, _, Prod.ext rfl honCall⟩

theorem debug_body_not_consumed_witness :
    ∃ w req, newRequest ((sampleEnv "").setenv "FAAS_DEBUG" "1") gatewayWorld
        (gatewayClient basicAuth "faas-cli/dev") "PUT" "/system/functions" []
        (some ⟨.bytesReader, "\x7b\"service\":\"echo\"\x7d", none⟩) = (w, Outcome.value req) ∧
      req.Body.map Reader.readAll = some (.ok "\x7b\"service\":\"echo\"\x7d") ∧
      w.stdout.getLast? = some "\x7b\"service\":\"echo\"\x7d\n" :=
  ⟨_, _, rfl,
    ((debug_body_not_consumed (sampleEnv "") gatewayWorld (gatewayClient basicAuth "faas-cli/dev")
      "PUT" "/system/functions" [] ⟨.bytesReader, "\x7b\"service\":\"echo\"\x7d", none⟩ rfl
      (by decide)).2.2.1 _ _ rfl).2.1 (fun _ => rfl),
    rfl⟩

/-- C4. `doRequest` prefers the context's error.  Whenever the transport call
is reached (the dump is off, or dumping succeeded): if it fails and the context
is done, `doRequest` returns a nil response and `ctx.Err()`; if it fails and
the context is not done, it returns the transport's response and error
unchanged; if it succeeds, it returns the response and a nil error. -/
theorem doRequest_prefers_context_error (env : Env) (w : World) (c : Client) (ctx : Context)
    (req : Request)
    (hdump : env.lookupEnv "OPENFAAS_DUMP_HTTP" ≠ some "true" ∨
      ∃ dump, env.dumpRequest (req.WithContext ctx) = .ok dump) :
    (∀ res err ctxErr, env.httpDo c.httpClient (req.WithContext ctx) = (res, some err) →
      ctx.Err = some ctxErr → (doRequest env w c ctx req).2 = (none, some ctxErr)) ∧
    (∀ res err, env.httpDo c.httpClient (req.WithContext ctx) = (res, some err) →
      ctx.Err = none → (doRequest env w c ctx req).2 = (res, some err)) ∧
    (∀ res, env.httpDo c.httpClient (req.WithContext ctx) = (res, none) →
      (doRequest env w c ctx req).2 = (res, none)) := by
  have hreach : ∃ w1, doRequest env w c ctx req =
      match env.httpDo c.httpClient (req.WithContext ctx) with
      | (res, some err) => if ctx.Done then (w1, none, ctx.Err) else (w1, res, some err)
      | (res, none) => (w1, res, none) := by
    unfold doRequest
    rcases hdump with hoff | ⟨dump, hd⟩
    · exact ⟨w, by simp only [if_neg hoff]⟩
    · by_cases hon : env.lookupEnv "OPENFAAS_DUMP_HTTP" = some "true"
      · exact ⟨w.print (dump ++ "\n"), by simp only [if_pos hon, hd]⟩
      · exact ⟨w, by simp only [if_neg hon]⟩
  obtain ⟨w1, hw1⟩ := hreach
  refine ⟨?_, ?_, ?_⟩
  · intro res err ctxErr hdo hctx
    rw [hw1, hdo]
    simp [Context.Done, hctx]
  · intro res err hdo hctx
    rw [hw1, hdo]
    simp [Context.Done, hctx]
  · intro res hdo
    rw [hw1, hdo]

theorem doRequest_prefers_context_error_witness :
    (doRequest (sampleEnv "") emptyWorld (gatewayClient noAuth "faas-cli/dev")
      ⟨some "context deadline exceeded"⟩
      (emptyRequest "GET" ⟨"http", "gw", "/system/functions", ""⟩)).2 =
      (none, some "context deadline exceeded") :=
  (doRequest_prefers_context_error (sampleEnv "") emptyWorld (gatewayClient noAuth "faas-cli/dev")
    ⟨some "context deadline exceeded"⟩
    (emptyRequest "GET" ⟨"http", "gw", "/system/functions", ""⟩)
    (Or.inl (by decide))).1 none "Get: context deadline exceeded" "context deadline exceeded" rfl rfl

theorem digitChar_not_separator (d : Nat) (hd : d < 10) : ¬ separator (Nat.digitChar d) := by
  unfold separator
  interval_cases d <;> decide

theorem toDigitsCore_not_separator (fuel n : Nat) (ds : List Char)
    (hds : ∀ ch ∈ ds, ¬ separator ch) :
    ∀ ch ∈ Nat.toDigitsCore 10 fuel n ds, ¬ separator ch := by
  induction fuel generalizing n ds with
  | zero => simpa [Nat.toDigitsCore] using hds
  | succ fuel ih =>
    have hcons : ∀ ch ∈ Nat.digitChar (n % 10) :: ds, ¬ separator ch := by
      intro ch hch
      rcases List.mem_cons.mp hch with rfl | hmem
      · exact digitChar_not_separator _ (Nat.mod_lt _ (by decide))
      · exact hds ch hmem
    unfold Nat.toDigitsCore
    simp only
    split
    · exact hcons
    · exact ih _ _ hcons

theorem natRepr_not_separator (n : Nat) : ∀ ch ∈ (toString n).data, ¬ separator ch := by
  show ∀ ch ∈ (Nat.repr n).data, ¬ separator ch
  unfold Nat.repr Nat.toDigits
  exact toDigitsCore_not_separator _ _ _ (by simp)

theorem intRepr_not_separator (code : Int) : ∀ ch ∈ (toString code).data, ¬ separator ch := by
  cases code with
  | ofNat m => exact natRepr_not_separator m
  | negSucc m =>
    show ∀ ch ∈ ("-" ++ toString (Nat.succ m)).data, ¬ separator ch
    intro ch hch
    rw [String.data_append, List.mem_append] at hch
    rcases hch with h | h
    · have : ch = '-' := by simpa using h
      rw [this]; unfold separator; decide
    · exact natRepr_not_separator _ ch h

theorem append_blank_inj (a b x y : List Char) (ha : ' ' ∉ a) (hb : ' ' ∉ b)
    (h : a ++ ' ' :: x = b ++ ' ' :: y) : a = b ∧ x = y := by
  induction a generalizing b with
  | nil =>
    cases b with
    | nil => simpa using h
    | cons ch t =>
      simp only [List.nil_append, List.cons_append, List.cons.injEq] at h
      exact absurd (by simp [← h.1]) hb
  | cons ch t ih =>
    cases b with
    | nil =>
      simp only [List.nil_append, List.cons_append, List.cons.injEq] at h
      exact absurd (by simp [h.1]) ha
    | cons ch' t' =>
      simp only [List.cons_append, List.cons.injEq] at h
      obtain ⟨hrest, hxy⟩ := ih t' (fun e => ha (List.mem_cons_of_mem _ e))
        (fun e => hb (List.mem_cons_of_mem _ e)) h.2
      exact ⟨by rw [h.1, hrest], hxy⟩

theorem deployLine_data (name : String) (code : Int) :
    (deployLine name code).data =
      "Function '".data ++ name.data ++
        ("' failed to deploy with status code:".data ++ ' ' :: (toString code).data) := by
  unfold deployLine
  simp only [String.data_append]
  simp

/-- A deploy line names one function only. -/
theorem deployLine_name_inj (name name' : String) (code code' : Int)
    (h : deployLine name code = deployLine name' code') : name = name' := by
  have hd := congrArg String.data h
  rw [deployLine_data, deployLine_data, List.append_assoc, List.append_assoc] at hd
  have hd := List.append_cancel_left hd
  have hr := congrArg List.reverse hd
  simp only [List.reverse_append, List.reverse_cons, List.append_assoc, List.singleton_append]
    at hr
  have hnd : ∀ c : Int, ' ' ∉ (toString c).data.reverse := by
    intro c hc
    exact intRepr_not_separator c ' ' (List.mem_reverse.mp hc) (Or.inl rfl)
  obtain ⟨-, hx⟩ := append_blank_inj _ _ _ _ (hnd code) (hnd code') hr
  have := List.append_cancel_left hx
  exact String.ext (List.reverse_injective this)

theorem intercalate_go_data (sep : String) (parts : List String) (acc : String) :
    (String.intercalate.go acc sep parts).data =
      acc.data ++ (parts.map (fun p => sep.data ++ p.data)).flatten := by
  induction parts generalizing acc with
  | nil => simp [String.intercalate.go]
  | cons p t ih => simp [String.intercalate.go, ih, String.data_append]

theorem intercalate_data (sep : String) (parts : List String) :
    (sep.intercalate parts).data = sep.data.intercalate (parts.map String.data) := by
  cases parts with
  | nil => rfl
  | cons p t =>
    show (String.intercalate.go p sep t).data = _
    rw [intercalate_go_data]
    induction t generalizing p with
    | nil => simp [List.intercalate]
    | cons q t ih =>
      have := ih q
      simp only [List.intercalate, List.map_cons, List.intersperse, List.flatten_cons,
        List.append_assoc] at this ⊢
      rw [this]

theorem messageLines_intercalate (parts : List String) (hne : parts ≠ [])
    (hparts : ∀ p ∈ parts, '\n' ∉ p.data) :
    messageLines ("\n".intercalate parts) = parts := by
  unfold messageLines
  rw [intercalate_data]
  show List.map String.mk (List.splitOn '\n' (['\n'].intercalate (parts.map String.data))) = parts
  rw [List.splitOn_intercalate]
  · simp [List.map_map, Function.comp_def]
  · intro l hl
    obtain ⟨p, hp, rfl⟩ := List.mem_map.mp hl
    exact hparts p hp
  · simpa using hne
theorem status_value_unique (status : List (String × Int))
    (hkeys : (status.map Prod.fst).Nodup) (kv kv' : String × Int)
    (h : kv ∈ status) (h' : kv' ∈ status) (hname : kv.1 = kv'.1) : kv = kv' :=
  List.inj_on_of_nodup_map hkeys h h' hname

theorem deployLines_nodup (status : List (String × Int))
    (hkeys : (status.map Prod.fst).Nodup) : (deployLines status).Nodup := by
  unfold deployLines
  apply List.Nodup.map_on
  · intro kv hkv kv' hkv' hline
    exact status_value_unique status hkeys kv kv' (List.mem_filter.mp hkv).1
      (List.mem_filter.mp hkv').1 (deployLine_name_inj _ _ _ _ hline)
  · exact (List.Nodup.of_map _ hkeys).filter _

theorem mem_deployLines (status : List (String × Int))
    (hkeys : (status.map Prod.fst).Nodup) (kv : String × Int) (hkv : kv ∈ status) :
    deployLine kv.1 kv.2 ∈ deployLines status ↔ badStatusCode kv.2 = true := by
  unfold deployLines
  constructor
  · intro h
    obtain ⟨kv', hkv', hline⟩ := List.mem_map.mp h
    have hmem := List.mem_filter.mp hkv'
    have := status_value_unique status hkeys kv' kv hmem.1 hkv
      (deployLine_name_inj _ _ _ _ hline)
    rw [← this]; exact hmem.2
  · intro hbad
    exact List.mem_map.mpr ⟨kv, List.mem_filter.mpr ⟨hkv, hbad⟩, rfl⟩

theorem deployLines_no_newline (status : List (String × Int))
    (hnames : ∀ kv ∈ status, '\n' ∉ kv.1.data) :
    ∀ line ∈ deployLines status, '\n' ∉ line.data := by
  intro line hline
  unfold deployLines at hline
  obtain ⟨kv, hkv, rfl⟩ := List.mem_map.mp hline
  rw [deployLine_data]
  simp only [List.mem_append, List.mem_cons, not_or]
  refine ⟨⟨by decide, hnames kv (List.mem_filter.mp hkv).1⟩, by decide, by decide, ?_⟩
  exact fun h => intRepr_not_separator kv.2 '\n' h (Or.inr rfl)

theorem deployFailed_eq (status : List (String × Int)) :
    deployFailed status =
      if deployLines status = [] then none else some ("\n".intercalate (deployLines status)) := by
  unfold deployFailed
  cases status with
  | nil => rfl
  | cons kv t =>
    simp only [List.isEmpty_cons, Bool.false_eq_true, if_false]
    cases h : deployLines (kv :: t) with
    | nil => rfl
    | cons l ls => rfl

/-- C5. The aggregator reports every failure and only failures.  For a mapping
(entries with distinct names, in any order): `deployFailed` returns nil exactly
when no entry has a bad status code, a code being bad exactly when it is
neither 200 nor 202, so it returns nil for the empty mapping; when it returns
an error, the message is the newline-joined list of collected lines, in which
the line of every entry with a bad code occurs exactly once and the line of an
entry with a good code does not occur; and when no function name contains a
newline, the lines of the message text are exactly the collected lines. -/
theorem deployFailed_reports_failures (status : List (String × Int))
    (hkeys : (status.map Prod.fst).Nodup) :
    (deployFailed status = none ↔ ∀ kv ∈ status, badStatusCode kv.2 = false) ∧
    (∀ code : Int, badStatusCode code = true ↔ (code ≠ 200 ∧ code ≠ 202)) ∧
    deployFailed [] = none ∧
    (∀ msg, deployFailed status = some msg →
      msg = "\n".intercalate (deployLines status) ∧
      ∀ kv ∈ status,
        (badStatusCode kv.2 = true → (deployLines status).count (deployLine kv.1 kv.2) = 1) ∧
        (badStatusCode kv.2 = false → deployLine kv.1 kv.2 ∉ deployLines status)) ∧
    ((∀ kv ∈ status, '\n' ∉ kv.1.data) → ∀ msg, deployFailed status = some msg →
      messageLines msg = deployLines status ∧
      ∀ kv ∈ status,
        (badStatusCode kv.2 = true → (messageLines msg).count (deployLine kv.1 kv.2) = 1) ∧
        (badStatusCode kv.2 = false → deployLine kv.1 kv.2 ∉ messageLines msg)) := by
  have hentries : ∀ kv ∈ status,
      (badStatusCode kv.2 = true → (deployLines status).count (deployLine kv.1 kv.2) = 1) ∧
      (badStatusCode kv.2 = false → deployLine kv.1 kv.2 ∉ deployLines status) := by
    intro kv hkv
    constructor
    · intro hbad
      exact List.count_eq_one_of_mem (deployLines_nodup status hkeys)
        ((mem_deployLines status hkeys kv hkv).mpr hbad)
    · intro hgood hmem
      rw [(mem_deployLines status hkeys kv hkv).mp hmem] at hgood
      exact Bool.noConfusion hgood
  refine ⟨?_, ?_, rfl, ?_, ?_⟩
  · rw [deployFailed_eq]
    constructor
    · intro h kv hkv
      by_cases hl : deployLines status = []
      · cases hb : badStatusCode kv.2 with
        | false => rfl
        | true =>
          have := (mem_deployLines status hkeys kv hkv).mpr hb
          rw [hl] at this
          exact absurd this (List.not_mem_nil _)
      · rw [if_neg hl] at h
        exact Option.noConfusion h
    · intro h
      have hl : deployLines status = [] := by
        unfold deployLines
        rw [List.map_eq_nil_iff, List.filter_eq_nil_iff]
        intro kv hkv
        rw [h kv hkv]
        exact Bool.false_ne_true
      rw [if_pos hl]
  · intro code
    unfold badStatusCode
    simp
  · intro msg hmsg
    rw [deployFailed_eq] at hmsg
    by_cases hl : deployLines status = []
    · rw [if_pos hl] at hmsg
      exact Option.noConfusion hmsg
    · rw [if_neg hl] at hmsg
      exact ⟨(Option.some.inj hmsg).symm, hentries⟩
  · intro hnames msg hmsg
    rw [deployFailed_eq] at hmsg
    by_cases hl : deployLines status = []
    · rw [if_pos hl] at hmsg
      exact Option.noConfusion hmsg
    · rw [if_neg hl] at hmsg
      have hlines : messageLines msg = deployLines status := by
        rw [← Option.some.inj hmsg]
        exact messageLines_intercalate _ hl (deployLines_no_newline status hnames)
      rw [hlines]
      exact ⟨rfl, hentries⟩

theorem deployFailed_reports_failures_witness :
    deployFailed [("example1", 100), ("example2", 300), ("example3", 202), ("example4", 500)] =
      some ("Function 'example1' failed to deploy with status code: 100\n" ++
        "Function 'example2' failed to deploy with status code: 300\n" ++
        "Function 'example4' failed to deploy with status code: 500") ∧
    (messageLines ("Function 'example1' failed to deploy with status code: 100\n" ++
        "Function 'example2' failed to deploy with status code: 300\n" ++
        "Function 'example4' failed to deploy with status code: 500")).count
      (deployLine "example2" 300) = 1 ∧
    deployLine "example3" 202 ∉
      messageLines ("Function 'example1' failed to deploy with status code: 100\n" ++
        "Function 'example2' failed to deploy with status code: 300\n" ++
        "Function 'example4' failed to deploy with status code: 500") :=
  have hthm := (deployFailed_reports_failures
    [("example1", 100), ("example2", 300), ("example3", 202), ("example4", 500)]
    (by decide)).2.2.2.2 (by decide) _ rfl
  ⟨rfl, (hthm.2 ("example2", 300) (by decide)).1 rfl,
    (hthm.2 ("example3", 202) (by decide)).2 rfl⟩

end FaasCli
